import Mathlib

/-!
Verification development for a browser chat application with knowledge
groups (URLs + uploaded files), a single-outstanding-request conversation
orchestrator, and a suggestion fetch with fenced-JSON parsing.

The definitions below are a shallow embedding of the TypeScript source:
pure data is modelled with Lean structures, React state updates are
modelled as explicit state-passing functions, JavaScript strings are
modelled as `String`/`List Char`, and the external collaborators
(document-text extraction libraries, `JSON.parse`, the remote model API)
are modelled as explicit function parameters or outcome values.
-/

/-- `MessageSender` enum from the types module. -/
inductive MessageSender where
  | user
  | model
  | system
deriving DecidableEq, Repr

/-- `UrlContextMetadataItem` from the types module. -/
structure UrlContextMetadataItem where
  retrievedUrl : String
  urlRetrievalStatus : String
deriving DecidableEq, Repr

/-- `ChatMessage` from the types module.  The optional `isLoading` flag is
modelled as a `Bool` whose absent value is `false`; the optional
`urlContext` and `images` fields are modelled with `Option` and a list
defaulting to empty.  The `Date` timestamp is modelled as a `Nat`. -/
structure ChatMessage where
  id : String
  text : String
  sender : MessageSender
  timestamp : Nat
  isLoading : Bool := false
  urlContext : Option (List UrlContextMetadataItem) := none
  images : List String := []
deriving DecidableEq, Repr

/-- `ManagedFile` from the types module. -/
structure ManagedFile where
  name : String
  content : String
deriving DecidableEq, Repr

/-- `KnowledgeGroup` from the types module. -/
structure KnowledgeGroup where
  id : String
  name : String
  urls : List String
  files : List ManagedFile
deriving DecidableEq, Repr

/-- `AttachedImage` from the types module (`type` is the mime type). -/
structure AttachedImage where
  name : String
  dataUrl : String
  mimeType : String
deriving DecidableEq, Repr

/-- `MAX_SOURCES` constant of the application component. -/
def MAX_SOURCES : Nat := 20

/-- `GEMINI_DOCS_URLS` constant of the application component. -/
def GEMINI_DOCS_URLS : List String :=
  [ "https://ai.google.dev/gemini-api/docs",
    "https://ai.google.dev/gemini-api/docs/quickstart",
    "https://ai.google.dev/gemini-api/docs/api-key",
    "https://ai.google.dev/gemini-api/docs/libraries",
    "https://ai.google.dev/gemini-api/docs/models",
    "https://ai.google.dev/gemini-api/docs/pricing",
    "https://ai.google.dev/gemini-api/docs/rate-limits",
    "https://ai.google.dev/gemini-api/docs/billing",
    "https://ai.google.dev/gemini-api/docs/changelog" ]

/-- `MODEL_CAPABILITIES_URLS` constant of the application component. -/
def MODEL_CAPABILITIES_URLS : List String :=
  [ "https://ai.google.dev/gemini-api/docs/text-generation",
    "https://ai.google.dev/gemini-api/docs/image-generation",
    "https://ai.google.dev/gemini-api/docs/video",
    "https://ai.google.dev/gemini-api/docs/speech-generation",
    "https://ai.google.dev/gemini-api/docs/music-generation",
    "https://ai.google.dev/gemini-api/docs/long-context",
    "https://ai.google.dev/gemini-api/docs/structured-output",
    "https://ai.google.dev/gemini-api/docs/thinking",
    "https://ai.google.dev/gemini-api/docs/function-calling",
    "https://ai.google.dev/gemini-api/docs/document-processing",
    "https://ai.google.dev/gemini-api/docs/image-understanding",
    "https://ai.google.dev/gemini-api/docs/video-understanding",
    "https://ai.google.dev/gemini-api/docs/audio",
    "https://ai.google.dev/gemini-api/docs/code-execution",
    "https://ai.google.dev/gemini-api/docs/grounding" ]

/-- `INITIAL_KNOWLEDGE_GROUPS` constant of the application component. -/
def INITIAL_KNOWLEDGE_GROUPS : List KnowledgeGroup :=
  [ { id := "gemini-overview", name := "Gemini Docs Overview",
      urls := GEMINI_DOCS_URLS, files := [] },
    { id := "model-capabilities", name := "Model Capabilities",
      urls := MODEL_CAPABILITIES_URLS, files := [] } ]

/-! ## Knowledge-group mutation handlers (application component)

Each `handle…` callback maps over the group list and transforms the group
whose `id` equals `activeGroupId`.  The per-group bodies are factored out
as named functions so the theorems can speak about them directly. -/

/-- Per-group body of `handleAddUrl`: append the URL when the capacity
check passes and the URL is not already present, otherwise return the
group unchanged. -/
def addUrlGroup (url : String) (g : KnowledgeGroup) : KnowledgeGroup :=
  if g.urls.length + g.files.length < MAX_SOURCES ∧ url ∉ g.urls then
    { g with urls := g.urls ++ [url] }
  else g

/-- `handleAddUrl` of the application component. -/
def handleAddUrl (activeGroupId url : String) (groups : List KnowledgeGroup) :
    List KnowledgeGroup :=
  groups.map fun g => if g.id == activeGroupId then addUrlGroup url g else g

/-- Per-group body of `handleRemoveUrl`. -/
def removeUrlGroup (urlToRemove : String) (g : KnowledgeGroup) : KnowledgeGroup :=
  { g with urls := g.urls.filter fun url => url ≠ urlToRemove }

/-- `handleRemoveUrl` of the application component. -/
def handleRemoveUrl (activeGroupId urlToRemove : String)
    (groups : List KnowledgeGroup) : List KnowledgeGroup :=
  groups.map fun g => if g.id == activeGroupId then removeUrlGroup urlToRemove g else g

/-- The de-duplication step inside `handleAddFiles`:
`combinedFiles.filter((file, index, self) => index === self.findIndex(f => f.name === file.name))`. -/
def uniqueByName (combinedFiles : List ManagedFile) : List ManagedFile :=
  (combinedFiles.enum.filter fun p =>
      combinedFiles.findIdx (fun f => f.name == p.2.name) == p.1).map Prod.snd

/-- Per-group body of `handleAddFiles`: concatenate the new files onto the
stored ones and keep, for each name, only the first occurrence. -/
def addFilesGroup (newFiles : List ManagedFile) (g : KnowledgeGroup) : KnowledgeGroup :=
  { g with files := uniqueByName (g.files ++ newFiles) }

/-- `handleAddFiles` of the application component. -/
def handleAddFiles (activeGroupId : String) (newFiles : List ManagedFile)
    (groups : List KnowledgeGroup) : List KnowledgeGroup :=
  groups.map fun g => if g.id == activeGroupId then addFilesGroup newFiles g else g

/-- Per-group body of `handleRemoveFile`. -/
def removeFileGroup (fileNameToRemove : String) (g : KnowledgeGroup) : KnowledgeGroup :=
  { g with files := g.files.filter fun file => file.name ≠ fileNameToRemove }

/-- `handleRemoveFile` of the application component. -/
def handleRemoveFile (activeGroupId fileNameToRemove : String)
    (groups : List KnowledgeGroup) : List KnowledgeGroup :=
  groups.map fun g =>
    if g.id == activeGroupId then removeFileGroup fileNameToRemove g else g

/-- The four knowledge-group mutation callbacks, as one operation type. -/
inductive GroupOp where
  | addUrl (url : String)
  | removeUrl (url : String)
  | addFiles (newFiles : List ManagedFile)
  | removeFile (fileName : String)

/-- Dispatch a `GroupOp` to the corresponding handler. -/
def applyGroupOp (activeGroupId : String) (op : GroupOp)
    (groups : List KnowledgeGroup) : List KnowledgeGroup :=
  match op with
  | .addUrl url => handleAddUrl activeGroupId url groups
  | .removeUrl url => handleRemoveUrl activeGroupId url groups
  | .addFiles newFiles => handleAddFiles activeGroupId newFiles groups
  | .removeFile fileName => handleRemoveFile activeGroupId fileName groups

/-! ## Spec-side description of the de-duplicated union (for claim C4)

The following two definitions follow the specification's words — "produce
the de-duplicated union (first occurrence by name wins)" — and are proved
equal to the source-derived `uniqueByName` below. -/

/-- Spec-side first-occurrence filter: keep a file when its name has not
been seen before, accumulating the seen names. -/
def keepFirstAux : List ManagedFile → List String → List ManagedFile
  | [], _ => []
  | f :: rest, seen =>
    if f.name ∈ seen then keepFirstAux rest seen
    else f :: keepFirstAux rest (f.name :: seen)

/-- Spec-side de-duplicated union: first occurrence of each name wins. -/
def keepFirstByName (files : List ManagedFile) : List ManagedFile :=
  keepFirstAux files []

/-- Names seen after processing a list, starting from `seen`. -/
def seenAfter : List ManagedFile → List String → List String
  | [], seen => seen
  | f :: rest, seen =>
    if f.name ∈ seen then seenAfter rest seen
    else seenAfter rest (f.name :: seen)

/-! ## File import (`handleFileChange` in the knowledge-base component)

Files are read by a `FileReader`; `RawFile.raw` is the reader result for
the file (the decoded text for `readAsText`, the bytes for
`readAsArrayBuffer`, both modelled as a `String`).  The external
extraction libraries for the three binary formats (mammoth / XLSX /
pdf.js) are modelled by an explicit `binExtract` parameter. -/

/-- A selected file before extraction: its name and the reader result. -/
structure RawFile where
  name : String
  raw : String
deriving DecidableEq, Repr

/-- The component after the last dot: `split('.').pop()` keeps resetting
the accumulator at every dot, leaving what follows the final one (the
whole name when there is no dot, since `split` of a dot-free string
yields the one-element list). -/
def lastDotComponent : List Char → List Char → List Char
  | [], acc => acc.reverse
  | c :: rest, acc =>
    if c = '.' then lastDotComponent rest [] else lastDotComponent rest (c :: acc)

/-- `file.name.split('.').pop()?.toLowerCase()` — the extension is the
last dot-separated component, lower-cased (ASCII). -/
def fileExtension (name : String) : String :=
  String.mk ((lastDotComponent name.toList []).map Char.toLower)

/-- The three extensions read as an `ArrayBuffer` and handed to an
external extraction library. -/
def binaryExtensions : List String := ["docx", "xlsx", "pdf"]

/-- The structured-text extensions whose content is used verbatim. -/
def textExtensions : List String :=
  ["txt", "js", "ts", "jsx", "tsx", "json", "md", "html", "css", "py"]

/-- The two extensions rejected with a "not supported" error. -/
def rejectedExtensions : List String := ["doc", "pptx"]

/-- The per-file read-and-extract step of `handleFileChange`.

For the three binary extensions the reader yields an `ArrayBuffer`
(always truthy), and the result comes from the external library
(`binExtract`).  All other extensions are read as text; a file whose text
is the empty string hits the `if (!fileContent) return reject(...)` guard
(the empty JavaScript string is falsy) and is rejected with a
could-not-read error.  Otherwise the listed text extensions and — through
the `default` branch of the switch — every unknown extension resolve with
the raw text verbatim, while `doc`/`pptx` are rejected. -/
def processFile (binExtract : String → String → Except String String)
    (file : RawFile) : Except String ManagedFile :=
  let ext := fileExtension file.name
  if binaryExtensions.contains ext then
    match binExtract ext file.raw with
    | .ok extractedText => .ok { name := file.name, content := extractedText }
    | .error e => .error e
  else if file.raw = "" then
    .error ("Could not read: " ++ file.name)
  else if textExtensions.contains ext then
    .ok { name := file.name, content := file.raw }
  else if rejectedExtensions.contains ext then
    .error ("." ++ ext ++ " is not supported")
  else
    .ok { name := file.name, content := file.raw }

/-- `filesToProcess`: the selected files whose names are not already
stored for the active group. -/
def filesToProcessOf (files : List ManagedFile) (selected : List RawFile) :
    List RawFile :=
  selected.filter fun file => ¬ files.any fun existingFile => existingFile.name = file.name

/-- First capacity error message of `handleFileChange`. -/
def maxSourcesReachedMsg : String :=
  "Maximum sources (" ++ toString MAX_SOURCES ++ ") reached. Cannot add more files."

/-- Second capacity error message of `handleFileChange`. -/
def cannotAddAllMsg (n : Nat) : String :=
  "Cannot add all selected files. Adding " ++ toString n ++
    " file(s) would exceed the " ++ toString MAX_SOURCES ++ " source limit."

/-- Batched per-file error message of `handleFileChange`. -/
def importErrorsMsg (errorMessages : List String) : String :=
  "Import errors: " ++ String.intercalate ", " errorMessages ++ "."

/-- Result of one `handleFileChange` invocation: the files handed to
`onAddFiles` (`none` when the callback is not invoked), the error string
passed to `setError` (`none` for `setError(null)`), and the files that
were actually read and extracted. -/
structure FileChangeResult where
  toAdd : Option (List ManagedFile)
  error : Option String
  processed : List RawFile
deriving DecidableEq, Repr

/-- `handleFileChange` of the knowledge-base component, relative to the
active group's stored `urls` and `files` (its props). -/
def handleFileChange (binExtract : String → String → Except String String)
    (urls : List String) (files : List ManagedFile) (selected : List RawFile) :
    FileChangeResult :=
  if selected.isEmpty then { toAdd := none, error := none, processed := [] }
  else
    let totalSources := urls.length + files.length
    if MAX_SOURCES ≤ totalSources then
      { toAdd := none, error := some maxSourcesReachedMsg, processed := [] }
    else
      let filesToProcess := filesToProcessOf files selected
      if MAX_SOURCES < totalSources + filesToProcess.length then
        { toAdd := none, error := some (cannotAddAllMsg filesToProcess.length),
          processed := [] }
      else
        let results := filesToProcess.map (processFile binExtract)
        let successfulFiles := results.filterMap fun r =>
          match r with | .ok m => some m | .error _ => none
        let errorMessages := results.filterMap fun r =>
          match r with | .ok _ => none | .error e => some e
        { toAdd := if successfulFiles.isEmpty then none else some successfulFiles,
          error := if errorMessages.isEmpty then none
                   else some (importErrorsMsg errorMessages),
          processed := filesToProcess }

/-- One complete file import against the group list: the knowledge-base
component receives the active group's `urls`/`files` (empty lists when no
group matches, mirroring `activeGroup ? activeGroup.urls : []`), runs
`handleFileChange`, and calls `handleAddFiles` when it produced files. -/
def importFilesStep (binExtract : String → String → Except String String)
    (activeGroupId : String) (selected : List RawFile)
    (groups : List KnowledgeGroup) : List KnowledgeGroup :=
  let activeGroup := groups.find? fun g => g.id == activeGroupId
  let urls := match activeGroup with | some g => g.urls | none => []
  let files := match activeGroup with | some g => g.files | none => []
  match (handleFileChange binExtract urls files selected).toAdd with
  | some successfulFiles => handleAddFiles activeGroupId successfulFiles groups
  | none => groups

/-- The add operations of claim C1: a URL add, or a file import going
through the capacity check of `handleFileChange`. -/
inductive AddEvent where
  | addUrl (url : String)
  | importFiles (selected : List RawFile)

/-- Apply one add operation (paired with the active group id at the time
of the operation). -/
def stepAdd (binExtract : String → String → Except String String)
    (groups : List KnowledgeGroup) (ev : String × AddEvent) :
    List KnowledgeGroup :=
  match ev.2 with
  | .addUrl url => handleAddUrl ev.1 url groups
  | .importFiles selected => importFilesStep binExtract ev.1 selected groups

/-- Apply a sequence of add operations. -/
def runAdds (binExtract : String → String → Except String String)
    (evs : List (String × AddEvent)) (groups : List KnowledgeGroup) :
    List KnowledgeGroup :=
  evs.foldl (stepAdd binExtract) groups

/-- Number of sources of a group. -/
def sourceCount (g : KnowledgeGroup) : Nat := g.urls.length + g.files.length

/-- The capacity invariant of the specification. -/
def capInvariant (groups : List KnowledgeGroup) : Prop :=
  ∀ g ∈ groups, sourceCount g ≤ MAX_SOURCES

/-! ## Conversation orchestrator state (application component)

The four `useState` hooks touched by `handleSendMessage` and
`fetchAndSetInitialSuggestions` form the orchestrator state.  The async
handlers are split at their `await` points into a start phase and a
settle phase; the outcome of the remote call is an explicit value. -/

/-- The orchestrator's React state. -/
structure AppState where
  chatMessages : List ChatMessage
  isLoading : Bool
  isFetchingSuggestions : Bool
  initialQuerySuggestions : List String
deriving DecidableEq, Repr

/-- How the remote send call settles: the response (its text and optional
URL-context metadata), or a thrown error's message. -/
inductive CallOutcome where
  | success (text : String) (urlContextMetadata : Option (List UrlContextMetadataItem))
  | failure (message : String)
deriving DecidableEq, Repr

/-- The `userMessage` built by `handleSendMessage` (`Date.now()` is the
`now` parameter). -/
def userMessageOf (query : String) (images : List AttachedImage) (now : Nat) :
    ChatMessage :=
  { id := "user-" ++ toString now, text := query, sender := .user,
    timestamp := now, images := images.map fun img => img.dataUrl }

/-- The `modelPlaceholderMessage` built by `handleSendMessage`. -/
def modelPlaceholderOf (now : Nat) : ChatMessage :=
  { id := "model-response-" ++ toString now, text := "Thinking...",
    sender := .model, timestamp := now, isLoading := true }

/-- The missing-API-key system message appended by `handleSendMessage`. -/
def apiKeyErrorMessage (now : Nat) : ChatMessage :=
  { id := "error-apikey-" ++ toString now,
    text := "ERROR: API Key (process.env.API_KEY) is not configured. Please set it up to send messages.",
    sender := .system, timestamp := now }

/-- JavaScript `String.prototype.trim` whitespace (ASCII part): the
characters of `\s` relevant here. -/
def jsSpace (c : Char) : Bool :=
  c == ' ' || c == '\t' || c == '\n' || c == '\r' || c == '\x0b' || c == '\x0c'

/-- Drop leading JavaScript whitespace. -/
def jsTrimLeft (l : List Char) : List Char := l.dropWhile jsSpace

/-- Drop trailing JavaScript whitespace. -/
def jsTrimRight (l : List Char) : List Char := (l.reverse.dropWhile jsSpace).reverse

/-- JavaScript `trim` on character lists. -/
def jsTrim (l : List Char) : List Char := jsTrimRight (jsTrimLeft l)

/-- JavaScript `trim` on strings. -/
def jsTrimString (s : String) : String := String.mk (jsTrim s.toList)

/-- Start phase of `handleSendMessage`, up to the remote call.  Returns
the updated state and the placeholder message when a call was issued
(`none` when the guard rejected or the API key is missing). -/
def sendStart (apiKey : Option String) (query : String)
    (images : List AttachedImage) (now : Nat) (s : AppState) :
    AppState × Option ChatMessage :=
  if (jsTrimString query = "" ∧ images = []) ∨ s.isLoading = true ∨
      s.isFetchingSuggestions = true then
    (s, none)
  else
    match apiKey with
    | none => ({ s with chatMessages := s.chatMessages ++ [apiKeyErrorMessage now] }, none)
    | some _ =>
      let userMessage := userMessageOf query images now
      let modelPlaceholderMessage := modelPlaceholderOf now
      ({ s with isLoading := true, initialQuerySuggestions := [],
                chatMessages := s.chatMessages ++ [userMessage, modelPlaceholderMessage] },
       some modelPlaceholderMessage)

/-- The message that replaces the placeholder when the call settles: on
success the response text (or the empty-response fallback, since the
empty string is falsy) with the loading flag cleared; on failure an error
text re-tagged as a system message with the loading flag cleared.  Both
spread `modelPlaceholderMessage`. -/
def settledMessage (modelPlaceholderMessage : ChatMessage) (outcome : CallOutcome) :
    ChatMessage :=
  match outcome with
  | .success text meta =>
    { modelPlaceholderMessage with
        text := if text = "" then "I received an empty response." else text,
        isLoading := false, urlContext := meta }
  | .failure message =>
    let errorMessage := if message = "" then "Failed to get response from AI." else message
    { modelPlaceholderMessage with
        text := "Error: " ++ errorMessage, sender := .system, isLoading := false }

/-- Settle phase of `handleSendMessage`: replace, in place, every message
whose id equals the placeholder's id, then clear `isLoading` (the
`finally` block). -/
def sendSettle (modelPlaceholderMessage : ChatMessage) (outcome : CallOutcome)
    (s : AppState) : AppState :=
  { s with
      chatMessages := s.chatMessages.map fun msg =>
        if msg.id = modelPlaceholderMessage.id then
          settledMessage modelPlaceholderMessage outcome
        else msg,
      isLoading := false }

/-- One complete `handleSendMessage` run: the start phase followed — when
a call was issued — by the settle phase for the given outcome. -/
def handleSendMessage (apiKey : Option String) (query : String)
    (images : List AttachedImage) (now : Nat) (outcome : CallOutcome)
    (s : AppState) : AppState :=
  match sendStart apiKey query images now s with
  | (s1, none) => s1
  | (s1, some modelPlaceholderMessage) => sendSettle modelPlaceholderMessage outcome s1

/-! ## Suggestion fetch and fenced-JSON parsing

`fetchAndSetInitialSuggestions` strips an optional Markdown code fence
from the response text with
`/^```(\w*)?\s*\n?(.*?)\n?\s*```$/s` and feeds the result to
`JSON.parse`.  Since `\n` is itself a `\s` character, the greedy prefix
`\s*\n?` consumes exactly the maximal whitespace run, and the lazy middle
`(.*?)` followed by the anchored `\n?\s*` + fence ends exactly before the
maximal whitespace run preceding the closing fence; the functions below
implement that matching semantics directly.  `JSON.parse` is an external
builtin and is modelled as an explicit `parseJson` parameter. -/

/-- The backtick character. -/
def backtick : Char := Char.ofNat 96

/-- A three-backtick code fence. -/
def fenceTicks : List Char := [backtick, backtick, backtick]

/-- JavaScript `\w`: ASCII letters, digits and underscore. -/
def jsWord (c : Char) : Bool := c.isAlphanum || c == '_'

/-- Capture group 2 of `/^```(\w*)?\s*\n?(.*?)\n?\s*```$/s` applied to
`t`, when the whole string matches: the input must begin and end with a
fence (at least 6 characters in all); group 2 is what remains after
dropping the opening fence, the greedy word run (the language tag) and
the greedy whitespace run from the front, and the closing fence and the
whitespace run before it from the back. -/
def fenceGroup2 (t : List Char) : Option (List Char) :=
  if t.take 3 = fenceTicks ∧ 6 ≤ t.length ∧ t.drop (t.length - 3) = fenceTicks then
    let mid := ((t.drop 3).dropWhile jsWord).dropWhile jsSpace
    let body := mid.take (mid.length - 3)
    some (jsTrimRight body)
  else none

/-- The string handed to `JSON.parse`: the trimmed response text, with —
when the fence regex matched and its group 2 is truthy (non-empty) — the
trimmed group 2 instead. -/
def jsonStrOf (text : List Char) : List Char :=
  let jsonStr := jsTrim text
  match fenceGroup2 jsonStr with
  | some g2 => if g2 ≠ [] then jsTrim g2 else jsonStr
  | none => jsonStr

/-- JSON values, for the shape check performed on the parse result
(numbers are modelled as integers; only truthiness of a number matters
here). -/
inductive JsonValue where
  | null
  | bool (b : Bool)
  | num (n : Int)
  | str (s : String)
  | arr (elems : List JsonValue)
  | obj (fields : List (String × JsonValue))

/-- JavaScript truthiness of a JSON value. -/
def jsTruthy : JsonValue → Bool
  | .null => false
  | .bool b => b
  | .num n => n != 0
  | .str s => s != ""
  | .arr _ => true
  | .obj _ => true

/-- JavaScript property access `parsed.suggestions` on a JSON value. -/
def getField : JsonValue → String → Option JsonValue
  | .obj fields, key => (fields.find? fun p => p.1 == key).map Prod.snd
  | _, _ => none

/-- The three ways the suggestion-parsing step can end. -/
inductive SuggestionOutcome where
  | parsed (suggestions : List String)
  | badShape
  | parseFailed
deriving DecidableEq, Repr

/-- The suggestion-parsing step of `fetchAndSetInitialSuggestions`: strip
the fence, run `JSON.parse` (the `parseJson` parameter), and when the
result is truthy and has an array `suggestions` field, keep its string
elements; otherwise report the unexpected-format or parse-error path. -/
def suggestionOutcomeOf (parseJson : List Char → Option JsonValue)
    (text : List Char) : SuggestionOutcome :=
  let jsonStr := jsonStrOf text
  match parseJson jsonStr with
  | none => .parseFailed
  | some parsed =>
    if jsTruthy parsed then
      match getField parsed "suggestions" with
      | some (.arr elems) =>
        .parsed (elems.filterMap fun v => match v with | .str s => some s | _ => none)
      | _ => .badShape
    else .badShape

/-- Start phase of `fetchAndSetInitialSuggestions`: with no sources it
just clears the suggestions; otherwise it raises the fetching flag,
clears the suggestions and issues the remote call (second component
`true`).  Note there is no guard on `isFetchingSuggestions`. -/
def fetchSuggestionsStart (urls : List String) (files : List ManagedFile)
    (s : AppState) : AppState × Bool :=
  if urls.length = 0 ∧ files.length = 0 then
    ({ s with initialQuerySuggestions := [] }, false)
  else
    ({ s with isFetchingSuggestions := true, initialQuerySuggestions := [] }, true)

/-- Unexpected-format system message of the suggestion fetch. -/
def suggestionFormatErrorMessage (now : Nat) : ChatMessage :=
  { id := "sys-err-suggestion-fmt-" ++ toString now,
    text := "Received suggestions in an unexpected format.",
    sender := .system, timestamp := now }

/-- JSON-parse-error system message of the suggestion fetch. -/
def suggestionParseErrorMessage (now : Nat) : ChatMessage :=
  { id := "sys-err-suggestion-parse-" ++ toString now,
    text := "Error parsing suggestions from AI.",
    sender := .system, timestamp := now }

/-- Fetch-failure system message of the suggestion fetch (with the falsy
fallback of `e.message`). -/
def suggestionFetchErrorMessage (message : String) (now : Nat) : ChatMessage :=
  let errorMessage := if message = "" then "Failed to fetch initial suggestions." else message
  { id := "sys-err-suggestion-fetch-" ++ toString now,
    text := "Error fetching suggestions: " ++ errorMessage,
    sender := .system, timestamp := now }

/-- Settle phase of `fetchAndSetInitialSuggestions`: on a response, parse
its text (when truthy) and store up to four suggestions, appending a
warning message on a shape or parse failure; on a thrown fetch error,
append the fetch-error message; in every case finally clear the fetching
flag. -/
def fetchSuggestionsSettle (parseJson : List Char → Option JsonValue)
    (outcome : Except String String) (now : Nat) (s : AppState) : AppState :=
  let s1 :=
    match outcome with
    | .ok text =>
      if text = "" then { s with initialQuerySuggestions := [] }
      else
        match suggestionOutcomeOf parseJson text.toList with
        | .parsed suggestionsArray =>
          { s with initialQuerySuggestions := suggestionsArray.take 4 }
        | .badShape =>
          { s with chatMessages := s.chatMessages ++ [suggestionFormatErrorMessage now],
                   initialQuerySuggestions := [] }
        | .parseFailed =>
          { s with chatMessages := s.chatMessages ++ [suggestionParseErrorMessage now],
                   initialQuerySuggestions := [] }
    | .error message =>
      { s with chatMessages := s.chatMessages ++ [suggestionFetchErrorMessage message now] }
  { s1 with isFetchingSuggestions := false }

/-- The local part of the service function `getInitialSuggestions`: with
no URLs and no files it resolves immediately with a canned JSON payload
(`JSON.stringify` of one suggestion string) before ever touching the API
key; otherwise it requires a configured key (`getAiInstance` throws
without one) and issues the remote call (`.ok none`). -/
def getInitialSuggestionsLocal (apiKey : Option String) (urls : List String)
    (files : List ManagedFile) : Except String (Option String) :=
  if urls.length = 0 ∧ files.length = 0 then
    .ok (some "\x7b\"suggestions\":[\"Add URLs or import files to get suggestions.\"]\x7d")
  else
    match apiKey with
    | none => .error "Gemini API Key not configured. Set process.env.API_KEY."
    | some _ => .ok none

/-- The canned suggestions payload returned for an empty knowledge set. -/
def cannedSuggestionsJson : String :=
  "\x7b\"suggestions\":[\"Add URLs or import files to get suggestions.\"]\x7d"

/-! ## Orchestrator event system

UI events drive the two async handlers.  A send can settle only while a
send is outstanding, and a suggestion fetch can settle only while a fetch
is outstanding; the pending placeholders / pending-fetch count make the
outstanding calls explicit.  `invokeFetch` mirrors the `useEffect` that
calls `fetchAndSetInitialSuggestions` whenever the active knowledge set
or the selected model changes with an API key present (and otherwise
clears the suggestions). -/

/-- An orchestrator event. -/
inductive OrchEvent where
  | invokeSend (apiKey : Option String) (query : String)
      (images : List AttachedImage) (now : Nat)
  | settleSend (outcome : CallOutcome)
  | invokeFetch (apiKey : Option String) (urls : List String)
      (files : List ManagedFile)
  | settleFetch (parseJson : List Char → Option JsonValue)
      (outcome : Except String String) (now : Nat)

/-- Orchestrator state: the React state plus the outstanding calls. -/
structure Orch where
  app : AppState
  pendingSends : List ChatMessage
  pendingFetches : Nat

/-- One orchestrator step. -/
def orchStep (ev : OrchEvent) (o : Orch) : Orch :=
  match ev with
  | .invokeSend apiKey query images now =>
    match sendStart apiKey query images now o.app with
    | (a, none) => { o with app := a }
    | (a, some modelPlaceholderMessage) =>
      { o with app := a, pendingSends := o.pendingSends ++ [modelPlaceholderMessage] }
  | .settleSend outcome =>
    match o.pendingSends with
    | [] => o
    | modelPlaceholderMessage :: rest =>
      { o with app := sendSettle modelPlaceholderMessage outcome o.app,
               pendingSends := rest }
  | .invokeFetch apiKey urls files =>
    match apiKey with
    | some _ =>
      if 0 < urls.length ∨ 0 < files.length then
        { o with app := (fetchSuggestionsStart urls files o.app).1,
                 pendingFetches := o.pendingFetches +
                   (if (fetchSuggestionsStart urls files o.app).2 then 1 else 0) }
      else
        { o with app := { o.app with initialQuerySuggestions := [] } }
    | none => { o with app := { o.app with initialQuerySuggestions := [] } }
  | .settleFetch parseJson outcome now =>
    match o.pendingFetches with
    | 0 => o
    | n + 1 =>
      { o with app := fetchSuggestionsSettle parseJson outcome now o.app,
               pendingFetches := n }

/-- The initial orchestrator state: no messages yet, nothing in flight. -/
def orchInit : Orch :=
  { app := { chatMessages := [], isLoading := false, isFetchingSuggestions := false,
             initialQuerySuggestions := [] },
    pendingSends := [], pendingFetches := 0 }

/-- Run a sequence of orchestrator events from the initial state. -/
def orchRun (evs : List OrchEvent) : Orch :=
  evs.foldl (fun o ev => orchStep ev o) orchInit

/-! ## Theorems -/

/-- C10: `getInitialSuggestions` called with an empty URL list and an
empty file list resolves immediately with the canned JSON payload whose
`suggestions` array contains the single string "Add URLs or import files
to get suggestions.", for every API-key configuration (no credential is
required and no remote call is issued). -/
theorem getInitialSuggestions_empty_sources_canned (apiKey : Option String) :
    getInitialSuggestionsLocal apiKey [] [] = .ok (some cannedSuggestionsJson) := rfl

/-- C5: a send whose query text trims to empty and whose image list is
empty returns without appending any message and without changing any
state, whatever the API key, timestamp and call outcome. -/
theorem handleSendMessage_empty_input_noop (apiKey : Option String)
    (query : String) (images : List AttachedImage) (now : Nat)
    (outcome : CallOutcome) (s : AppState)
    (hq : jsTrimString query = "") (himg : images = []) :
    handleSendMessage apiKey query images now outcome s = s := by
  unfold handleSendMessage sendStart
  rw [if_pos (Or.inl ⟨hq, himg⟩)]

/-- Witness for C5 at a whitespace-only query. -/
theorem handleSendMessage_empty_input_noop_witness :
    (jsTrimString "   " = "" ∧ ([] : List AttachedImage) = []) ∧
      handleSendMessage (some "key") "   " [] 0 (.failure "boom")
        { chatMessages := [], isLoading := false, isFetchingSuggestions := false,
          initialQuerySuggestions := [] } =
      { chatMessages := [], isLoading := false, isFetchingSuggestions := false,
        initialQuerySuggestions := [] } :=
  ⟨⟨by decide, rfl⟩,
   handleSendMessage_empty_input_noop (some "key") "   " [] 0 (.failure "boom") _
     (by decide) rfl⟩

/-- C8 counterexample: `data.bin` has an extension outside the explicitly
handled set, yet an empty such file is rejected with a could-not-read
error (the empty string read by `readAsText` is falsy), so its raw
content is not used verbatim as a `ManagedFile`. -/
theorem processFile_empty_unknown_extension_rejected :
    fileExtension "data.bin" ∉ binaryExtensions ∧
    fileExtension "data.bin" ∉ textExtensions ∧
    fileExtension "data.bin" ∉ rejectedExtensions ∧
    processFile (fun _ _ => .error "unused") { name := "data.bin", raw := "" } =
      .error "Could not read: data.bin" ∧
    processFile (fun _ _ => .error "unused") { name := "data.bin", raw := "" } ≠
      .ok { name := "data.bin", content := "" } := by
  refine ⟨by decide, by decide, by decide, rfl, fun h => ?_⟩
  rw [show processFile (fun _ _ => .error "unused") { name := "data.bin", raw := "" } =
        .error "Could not read: data.bin" from rfl] at h
  exact Except.noConfusion h

/-- C8 (amended): for every file whose extension is outside the
explicitly handled set, extraction never fails with an
unsupported-format error: a file with non-empty text content resolves
with its raw content verbatim, and a file read as empty text is rejected
with a could-not-read error. -/
theorem processFile_unknown_extension_plain_text
    (binExtract : String → String → Except String String) (file : RawFile)
    (hbin : fileExtension file.name ∉ binaryExtensions)
    (htext : fileExtension file.name ∉ textExtensions)
    (hrej : fileExtension file.name ∉ rejectedExtensions) :
    processFile binExtract file =
      if file.raw = "" then .error ("Could not read: " ++ file.name)
      else .ok { name := file.name, content := file.raw } := by
  simp [processFile, hbin, htext, hrej]

/-- Witness for C8 (amended) at a non-empty `.xyz` file. -/
theorem processFile_unknown_extension_plain_text_witness :
    (fileExtension "notes.xyz" ∉ binaryExtensions ∧
     fileExtension "notes.xyz" ∉ textExtensions ∧
     fileExtension "notes.xyz" ∉ rejectedExtensions) ∧
    processFile (fun _ _ => .error "unused") { name := "notes.xyz", raw := "hello" } =
      (if ("hello" : String) = "" then .error ("Could not read: " ++ "notes.xyz")
       else .ok { name := "notes.xyz", content := "hello" }) :=
  ⟨⟨by decide, by decide, by decide⟩,
   processFile_unknown_extension_plain_text (fun _ _ => .error "unused")
     { name := "notes.xyz", raw := "hello" } (by decide) (by decide) (by decide)⟩

/-- C3: a non-empty selection whose pending files would push the active
group past `MAX_SOURCES` is rejected whole: nothing is handed to
`onAddFiles`, no file is read or extracted, and a capacity error is
reported (the maximum-reached message when the group is already full,
the cannot-add-all message otherwise). -/
theorem handleFileChange_over_cap_rejects_batch
    (binExtract : String → String → Except String String)
    (urls : List String) (files : List ManagedFile) (selected : List RawFile)
    (hsel : selected ≠ [])
    (hover : MAX_SOURCES <
      urls.length + files.length + (filesToProcessOf files selected).length) :
    (handleFileChange binExtract urls files selected).toAdd = none ∧
    (handleFileChange binExtract urls files selected).processed = [] ∧
    ((handleFileChange binExtract urls files selected).error =
        some maxSourcesReachedMsg ∨
     (handleFileChange binExtract urls files selected).error =
        some (cannotAddAllMsg (filesToProcessOf files selected).length)) := by
  have hne : selected.isEmpty = false := by
    cases selected with
    | nil => exact absurd rfl hsel
    | cons a l => rfl
  by_cases hfull : MAX_SOURCES ≤ urls.length + files.length
  · simp [handleFileChange, hne, hfull]
  · simp [handleFileChange, hne, hfull, hover]

/-- Witness for C3: a group already holding 21 URLs rejects a one-file
selection. -/
theorem handleFileChange_over_cap_rejects_batch_witness :
    (([ { name := "a.txt", raw := "x" } ] : List RawFile) ≠ [] ∧
      MAX_SOURCES < (List.replicate 21 "u").length + ([] : List ManagedFile).length +
        (filesToProcessOf [] [ { name := "a.txt", raw := "x" } ]).length) ∧
    (handleFileChange (fun _ _ => .error "unused") (List.replicate 21 "u") []
        [ { name := "a.txt", raw := "x" } ]).toAdd = none ∧
    (handleFileChange (fun _ _ => .error "unused") (List.replicate 21 "u") []
        [ { name := "a.txt", raw := "x" } ]).processed = [] ∧
    ((handleFileChange (fun _ _ => .error "unused") (List.replicate 21 "u") []
        [ { name := "a.txt", raw := "x" } ]).error = some maxSourcesReachedMsg ∨
     (handleFileChange (fun _ _ => .error "unused") (List.replicate 21 "u") []
        [ { name := "a.txt", raw := "x" } ]).error =
        some (cannotAddAllMsg
          (filesToProcessOf [] [ { name := "a.txt", raw := "x" } ]).length)) :=
  ⟨⟨by decide, by decide⟩,
   handleFileChange_over_cap_rejects_batch (fun _ _ => .error "unused")
     (List.replicate 21 "u") [] [ { name := "a.txt", raw := "x" } ]
     (by decide) (by decide)⟩

/-! ### Frame conditions of the group handlers (claim C9) -/

/-- The per-group transform of a `GroupOp`. -/
def groupOpTransform (op : GroupOp) : KnowledgeGroup → KnowledgeGroup :=
  match op with
  | .addUrl url => addUrlGroup url
  | .removeUrl url => removeUrlGroup url
  | .addFiles newFiles => addFilesGroup newFiles
  | .removeFile fileName => removeFileGroup fileName

theorem applyGroupOp_eq_map (activeGroupId : String) (op : GroupOp)
    (groups : List KnowledgeGroup) :
    applyGroupOp activeGroupId op groups =
      groups.map fun g =>
        if g.id == activeGroupId then groupOpTransform op g else g := by
  cases op <;> rfl

theorem groupOpTransform_id (op : GroupOp) (g : KnowledgeGroup) :
    (groupOpTransform op g).id = g.id := by
  cases op with
  | addUrl url =>
    show (addUrlGroup url g).id = g.id
    unfold addUrlGroup
    split <;> rfl
  | removeUrl url => rfl
  | addFiles newFiles => rfl
  | removeFile fileName => rfl

theorem groupOpTransform_name (op : GroupOp) (g : KnowledgeGroup) :
    (groupOpTransform op g).name = g.name := by
  cases op with
  | addUrl url =>
    show (addUrlGroup url g).name = g.name
    unfold addUrlGroup
    split <;> rfl
  | removeUrl url => rfl
  | addFiles newFiles => rfl
  | removeFile fileName => rfl

theorem getD_map_active (f : KnowledgeGroup → KnowledgeGroup) (a : String)
    (hid : ∀ g, (f g).id = g.id) (hname : ∀ g, (f g).name = g.name) :
    ∀ (gs : List KnowledgeGroup) (i : Nat) (d : KnowledgeGroup),
      (((gs.map fun g => if g.id == a then f g else g).getD i d).id =
          (gs.getD i d).id) ∧
      (((gs.map fun g => if g.id == a then f g else g).getD i d).name =
          (gs.getD i d).name) ∧
      ((gs.getD i d).id ≠ a →
        (gs.map fun g => if g.id == a then f g else g).getD i d = gs.getD i d) := by
  intro gs
  induction gs with
  | nil => intro i d; exact ⟨rfl, rfl, fun _ => rfl⟩
  | cons g gs ih =>
    intro i d
    cases i with
    | zero =>
      simp only [List.map_cons, List.getD_cons_zero]
      by_cases h : g.id == a
      · refine ⟨by simp [h, hid], by simp [h, hname], fun hne => ?_⟩
        exact absurd (by simpa using h) hne
      · simp [h]
    | succ n =>
      simpa only [List.map_cons, List.getD_cons_succ] using ih n d

/-- C9: every knowledge-group mutation (`handleAddUrl`, `handleRemoveUrl`,
`handleAddFiles`, `handleRemoveFile`) preserves the number and order of
groups, never changes any group's id or name, and leaves every group
whose id differs from the active one completely unchanged. -/
theorem groupOps_frame (activeGroupId : String) (op : GroupOp)
    (groups : List KnowledgeGroup) (i : Nat) (d : KnowledgeGroup) :
    (applyGroupOp activeGroupId op groups).length = groups.length ∧
    ((applyGroupOp activeGroupId op groups).getD i d).id = (groups.getD i d).id ∧
    ((applyGroupOp activeGroupId op groups).getD i d).name = (groups.getD i d).name ∧
    ((groups.getD i d).id ≠ activeGroupId →
      (applyGroupOp activeGroupId op groups).getD i d = groups.getD i d) := by
  rw [applyGroupOp_eq_map]
  exact ⟨by simp,
    getD_map_active (groupOpTransform op) activeGroupId
      (groupOpTransform_id op) (groupOpTransform_name op) groups i d⟩

/-- Witness for C9: adding a URL to the second initial group leaves the
first initial group untouched. -/
theorem groupOps_frame_witness :
    ((INITIAL_KNOWLEDGE_GROUPS.getD 0
        { id := "d", name := "d", urls := [], files := [] }).id ≠
      "model-capabilities") ∧
    (applyGroupOp "model-capabilities" (.addUrl "https://x.test/doc")
        INITIAL_KNOWLEDGE_GROUPS).getD 0
        { id := "d", name := "d", urls := [], files := [] } =
      INITIAL_KNOWLEDGE_GROUPS.getD 0
        { id := "d", name := "d", urls := [], files := [] } :=
  ⟨by decide,
   (groupOps_frame "model-capabilities" (.addUrl "https://x.test/doc")
      INITIAL_KNOWLEDGE_GROUPS 0
      { id := "d", name := "d", urls := [], files := [] }).2.2.2 (by decide)⟩

/-! ### Send lifecycle (claims C2, C5, C6) -/

theorem list_map_id_of_mem {α : Type} (l : List α) (f : α → α)
    (h : ∀ a ∈ l, f a = a) : l.map f = l := by
  induction l with
  | nil => rfl
  | cons a l ih =>
    rw [List.map_cons, h a (List.mem_cons_self a l),
      ih fun b hb => h b (List.mem_cons_of_mem a hb)]

theorem userMessage_id_ne_placeholder (query : String)
    (images : List AttachedImage) (now : Nat) :
    (userMessageOf query images now).id ≠ (modelPlaceholderOf now).id := by
  intro h
  have hlen : ("user-" ++ toString now).length =
      ("model-response-" ++ toString now).length := congrArg String.length h
  rw [String.length_append, String.length_append] at hlen
  have h1 : ("user-" : String).length = 5 := by decide
  have h2 : ("model-response-" : String).length = 15 := by decide
  rw [h1, h2] at hlen
  omega

theorem settledMessage_isLoading (modelPlaceholderMessage : ChatMessage)
    (outcome : CallOutcome) :
    (settledMessage modelPlaceholderMessage outcome).isLoading = false := by
  cases outcome <;> rfl

theorem settledMessage_id (modelPlaceholderMessage : ChatMessage)
    (outcome : CallOutcome) :
    (settledMessage modelPlaceholderMessage outcome).id =
      modelPlaceholderMessage.id := by
  cases outcome <;> rfl

/-- C2: when the input guard passes and a key is configured, the send
appends exactly the user message plus one loading placeholder; once the
remote call settles — successfully or not — the placeholder (matched by
its id) is replaced in place by exactly one terminal message with the
loading flag cleared (model-sent response text on success, system-sent
error text on failure), and no message of the transcript remains in the
loading state, nor does the orchestrator. -/
theorem handleSendMessage_settles_placeholder
    (key query : String) (images : List AttachedImage) (now : Nat)
    (outcome : CallOutcome) (s : AppState)
    (hinput : ¬(jsTrimString query = "" ∧ images = []))
    (hload : s.isLoading = false)
    (hfetch : s.isFetchingSuggestions = false)
    (hfresh : ∀ m ∈ s.chatMessages, m.id ≠ (modelPlaceholderOf now).id)
    (hquiet : ∀ m ∈ s.chatMessages, m.isLoading = false) :
    sendStart (some key) query images now s =
      ({ s with isLoading := true, initialQuerySuggestions := [],
                chatMessages := s.chatMessages ++
                  [userMessageOf query images now, modelPlaceholderOf now] },
       some (modelPlaceholderOf now)) ∧
    (modelPlaceholderOf now).isLoading = true ∧
    (userMessageOf query images now).isLoading = false ∧
    handleSendMessage (some key) query images now outcome s =
      { s with isLoading := false, initialQuerySuggestions := [],
               chatMessages := s.chatMessages ++
                 [userMessageOf query images now,
                  settledMessage (modelPlaceholderOf now) outcome] } ∧
    (settledMessage (modelPlaceholderOf now) outcome).id =
      (modelPlaceholderOf now).id ∧
    (settledMessage (modelPlaceholderOf now) outcome).isLoading = false ∧
    (∀ text meta, outcome = .success text meta →
      (settledMessage (modelPlaceholderOf now) outcome).sender = .model) ∧
    (∀ message, outcome = .failure message →
      (settledMessage (modelPlaceholderOf now) outcome).sender = .system) ∧
    (∀ m ∈ (handleSendMessage (some key) query images now outcome s).chatMessages,
      m.isLoading = false) ∧
    (handleSendMessage (some key) query images now outcome s).isLoading = false := by
  have hguard : ¬((jsTrimString query = "" ∧ images = []) ∨ s.isLoading = true ∨
      s.isFetchingSuggestions = true) := by
    rintro (h | h | h)
    · exact hinput h
    · rw [hload] at h; exact Bool.false_ne_true h
    · rw [hfetch] at h; exact Bool.false_ne_true h
  have hstart : sendStart (some key) query images now s =
      ({ s with isLoading := true, initialQuerySuggestions := [],
                chatMessages := s.chatMessages ++
                  [userMessageOf query images now, modelPlaceholderOf now] },
       some (modelPlaceholderOf now)) := by
    unfold sendStart
    rw [if_neg hguard]
  have hmap : (s.chatMessages ++
        [userMessageOf query images now, modelPlaceholderOf now]).map
      (fun msg => if msg.id = (modelPlaceholderOf now).id then
        settledMessage (modelPlaceholderOf now) outcome else msg) =
      s.chatMessages ++
        [userMessageOf query images now,
         settledMessage (modelPlaceholderOf now) outcome] := by
    rw [List.map_append]
    congr 1
    · exact list_map_id_of_mem _ _ fun m hm => if_neg (hfresh m hm)
    · rw [List.map_cons, List.map_cons, List.map_nil,
        if_neg (userMessage_id_ne_placeholder query images now), if_pos rfl]
  have hfinal : handleSendMessage (some key) query images now outcome s =
      { s with isLoading := false, initialQuerySuggestions := [],
               chatMessages := s.chatMessages ++
                 [userMessageOf query images now,
                  settledMessage (modelPlaceholderOf now) outcome] } := by
    unfold handleSendMessage
    rw [hstart]
    unfold sendSettle
    simp only [hmap]
  refine ⟨hstart, rfl, rfl, hfinal, settledMessage_id _ _, settledMessage_isLoading _ _,
    ?_, ?_, ?_, ?_⟩
  · intro text meta h; rw [h]; rfl
  · intro message h; rw [h]; rfl
  · rw [hfinal]
    intro m hm
    rcases List.mem_append.mp hm with hm | hm
    · exact hquiet m hm
    · rcases List.mem_cons.mp hm with rfl | hm
      · rfl
      · rcases List.mem_cons.mp hm with rfl | hm
        · exact settledMessage_isLoading _ _
        · exact absurd hm (List.not_mem_nil m)
  · rw [hfinal]

/-- Witness for C2 at a concrete successful send from an empty transcript. -/
theorem handleSendMessage_settles_placeholder_witness :
    (¬(jsTrimString "hello" = "" ∧ ([] : List AttachedImage) = [])) ∧
    (handleSendMessage (some "key") "hello" [] 0 (.success "hi there" none)
      { chatMessages := [], isLoading := false, isFetchingSuggestions := false,
        initialQuerySuggestions := [] }).isLoading = false :=
  ⟨by decide,
   (handleSendMessage_settles_placeholder "key" "hello" [] 0 (.success "hi there" none)
      { chatMessages := [], isLoading := false, isFetchingSuggestions := false,
        initialQuerySuggestions := [] }
      (by decide) rfl rfl (by simp) (by simp)).2.2.2.2.2.2.2.2.2⟩

/-! ### Outstanding-request discipline (claim C6) -/

theorem fetchSuggestionsStart_isLoading (urls : List String)
    (files : List ManagedFile) (s : AppState) :
    (fetchSuggestionsStart urls files s).1.isLoading = s.isLoading := by
  unfold fetchSuggestionsStart
  split <;> rfl

theorem fetchSuggestionsSettle_isLoading (parseJson : List Char → Option JsonValue)
    (outcome : Except String String) (now : Nat) (s : AppState) :
    (fetchSuggestionsSettle parseJson outcome now s).isLoading = s.isLoading := by
  unfold fetchSuggestionsSettle
  cases outcome with
  | ok text =>
    by_cases h : text = ""
    · simp [h]
    · simp only [if_neg h]
      cases hout : suggestionOutcomeOf parseJson text.toList <;> simp [hout]
  | error message => rfl

/-- The pending sends are in bijection with the raised `isLoading` flag:
this is the at-most-one-chat-send invariant. -/
def sendsInvariant (o : Orch) : Prop :=
  o.pendingSends.length = (if o.app.isLoading = true then 1 else 0)

theorem orchStep_sendsInvariant (ev : OrchEvent) (o : Orch)
    (h : sendsInvariant o) : sendsInvariant (orchStep ev o) := by
  cases ev with
  | invokeSend apiKey query images now =>
    simp only [orchStep]
    by_cases hg : (jsTrimString query = "" ∧ images = []) ∨ o.app.isLoading = true ∨
        o.app.isFetchingSuggestions = true
    · have hsend : sendStart apiKey query images now o.app = (o.app, none) := by
        unfold sendStart; rw [if_pos hg]
      rw [hsend]
      exact h
    · have hloadfalse : o.app.isLoading = false := by
        cases hb : o.app.isLoading
        · rfl
        · exact absurd (Or.inr (Or.inl hb)) hg
      cases apiKey with
      | none =>
        have hsend : sendStart none query images now o.app =
            ({ o.app with chatMessages := o.app.chatMessages ++
                            [apiKeyErrorMessage now] }, none) := by
          unfold sendStart; rw [if_neg hg]
        rw [hsend]
        show o.pendingSends.length = if o.app.isLoading = true then 1 else 0
        exact h
      | some key =>
        have hsend : sendStart (some key) query images now o.app =
            ({ o.app with isLoading := true, initialQuerySuggestions := [],
                          chatMessages := o.app.chatMessages ++
                            [userMessageOf query images now, modelPlaceholderOf now] },
             some (modelPlaceholderOf now)) := by
          unfold sendStart; rw [if_neg hg]
        rw [hsend]
        show (o.pendingSends ++ [modelPlaceholderOf now]).length = 1
        rw [List.length_append]
        unfold sendsInvariant at h
        rw [hloadfalse] at h
        rw [h]
        rfl
  | settleSend outcome =>
    obtain ⟨app, pendingSends, pendingFetches⟩ := o
    unfold sendsInvariant at h
    cases pendingSends with
    | nil => exact h
    | cons modelPlaceholderMessage rest =>
      cases hb : app.isLoading with
      | false =>
        rw [hb] at h
        simp at h
      | true =>
        rw [hb] at h
        have hrest : rest.length = 0 := by simpa using h
        show rest.length =
          if (sendSettle modelPlaceholderMessage outcome app).isLoading = true
          then 1 else 0
        rw [hrest]
        rfl
  | invokeFetch apiKey urls files =>
    cases apiKey with
    | none => exact h
    | some key =>
      simp only [orchStep]
      by_cases hc : 0 < urls.length ∨ 0 < files.length
      · rw [if_pos hc]
        show o.pendingSends.length =
          if (fetchSuggestionsStart urls files o.app).1.isLoading = true then 1 else 0
        rw [fetchSuggestionsStart_isLoading]
        exact h
      · rw [if_neg hc]
        exact h
  | settleFetch parseJson outcome now =>
    obtain ⟨app, pendingSends, pendingFetches⟩ := o
    cases pendingFetches with
    | zero => exact h
    | succ n =>
      show pendingSends.length =
        if (fetchSuggestionsSettle parseJson outcome now app).isLoading = true
        then 1 else 0
      rw [fetchSuggestionsSettle_isLoading]
      exact h

theorem orchRun_sendsInvariant (evs : List OrchEvent) :
    sendsInvariant (orchRun evs) := by
  have haux : ∀ (l : List OrchEvent) (o : Orch), sendsInvariant o →
      sendsInvariant (l.foldl (fun o ev => orchStep ev o) o) := by
    intro l
    induction l with
    | nil => intro o ho; exact ho
    | cons ev l ih => intro o ho; exact ih _ (orchStep_sendsInvariant ev o ho)
  exact haux evs orchInit rfl

/-- C6 counterexample: suggestion fetches are not guarded.  From the
initial orchestrator state, a suggestion fetch (non-empty URL list, key
present) raises the fetching flag, yet a second fetch invoked while the
first is still outstanding is not ignored — `fetchSuggestionsStart`
issues another call and two suggestion fetches become outstanding. -/
theorem suggestionFetch_not_guarded_counterexample :
    (orchRun [.invokeFetch (some "key") ["https://a.example"] []]).app.isFetchingSuggestions
      = true ∧
    (fetchSuggestionsStart ["https://a.example"] []
      (orchRun [.invokeFetch (some "key") ["https://a.example"] []]).app).2 = true ∧
    (orchRun [.invokeFetch (some "key") ["https://a.example"] [],
              .invokeFetch (some "key") ["https://a.example"] []]).pendingFetches = 2 :=
  ⟨rfl, rfl, rfl⟩

/-- C6 (amended): at most one chat-send is outstanding in every reachable
orchestrator state — `handleSendMessage` returns immediately, appending
nothing and issuing no call, whenever `isLoading` or
`isFetchingSuggestions` is raised, and `isLoading` is cleared exactly
when the outstanding send settles.  Suggestion fetches, by contrast, are
not guarded, so a second suggestion fetch can start while one is
outstanding. -/
theorem atMostOne_send_outstanding :
    (∀ evs : List OrchEvent, sendsInvariant (orchRun evs) ∧
      (orchRun evs).pendingSends.length ≤ 1) ∧
    (∀ (apiKey : Option String) (query : String) (images : List AttachedImage)
        (now : Nat) (s : AppState),
      s.isLoading = true ∨ s.isFetchingSuggestions = true →
      sendStart apiKey query images now s = (s, none)) := by
  constructor
  · intro evs
    refine ⟨orchRun_sendsInvariant evs, ?_⟩
    have h := orchRun_sendsInvariant evs
    unfold sendsInvariant at h
    rw [h]
    split <;> omega
  · intro apiKey query images now s h
    unfold sendStart
    rw [if_pos (Or.inr h)]

/-- Witness for C6 (amended) at a one-send run and a busy state. -/
theorem atMostOne_send_outstanding_witness :
    (sendsInvariant (orchRun [.invokeSend (some "key") "hello" [] 0]) ∧
      (orchRun [.invokeSend (some "key") "hello" [] 0]).pendingSends.length ≤ 1) ∧
    (({ chatMessages := [], isLoading := true, isFetchingSuggestions := false,
        initialQuerySuggestions := [] } : AppState).isLoading = true ∨
      ({ chatMessages := [], isLoading := true, isFetchingSuggestions := false,
         initialQuerySuggestions := [] } : AppState).isFetchingSuggestions = true) ∧
    sendStart (some "key") "query" [] 0
      { chatMessages := [], isLoading := true, isFetchingSuggestions := false,
        initialQuerySuggestions := [] } =
      ({ chatMessages := [], isLoading := true, isFetchingSuggestions := false,
         initialQuerySuggestions := [] }, none) :=
  ⟨atMostOne_send_outstanding.1 [.invokeSend (some "key") "hello" [] 0],
   Or.inl rfl,
   atMostOne_send_outstanding.2 (some "key") "query" [] 0
     { chatMessages := [], isLoading := true, isFetchingSuggestions := false,
       initialQuerySuggestions := [] } (Or.inl rfl)⟩

/-! ### De-duplication by name (claim C4) -/

theorem keepFirstAux_enum (full : List ManagedFile) :
    ∀ (l : List ManagedFile) (k : Nat) (seen : List String),
      full.drop k = l →
      (∀ n : String, n ∈ seen ↔ ∃ j, ∃ hj : j < full.length, j < k ∧ full[j].name = n) →
      ((l.enumFrom k).filter fun p =>
          full.findIdx (fun f => f.name == p.2.name) == p.1).map Prod.snd
        = keepFirstAux l seen := by
  intro l
  induction l with
  | nil => intro k seen hdrop hseen; rfl
  | cons f rest ih =>
    intro k seen hdrop hseen
    have hk : k < full.length := by
      by_contra hnk
      rw [List.drop_eq_nil_of_le (Nat.le_of_not_lt hnk)] at hdrop
      exact List.noConfusion hdrop
    have hcons : full.drop k = full[k] :: full.drop (k + 1) :=
      List.drop_eq_getElem_cons hk
    have hfk : full[k] = f := (List.cons_eq_cons.mp (hcons.symm.trans hdrop)).1
    have hrest : full.drop (k + 1) = rest :=
      (List.cons_eq_cons.mp (hcons.symm.trans hdrop)).2
    rw [List.enumFrom_cons, List.filter_cons]
    by_cases hin : f.name ∈ seen
    · obtain ⟨j, hj, hjk, hjname⟩ := (hseen f.name).mp hin
      have hfind_le : full.findIdx (fun g => g.name == f.name) ≤ j := by
        by_contra hlt
        have hfalse := List.not_of_lt_findIdx (Nat.lt_of_not_le hlt)
        rw [hjname] at hfalse
        simp at hfalse
      have hcond : (full.findIdx (fun g => g.name == f.name) == k) = false := by
        have : full.findIdx (fun g => g.name == f.name) ≠ k := by omega
        simpa using this
      rw [hcond]
      simp only [Bool.false_eq_true, if_false]
      rw [show keepFirstAux (f :: rest) seen = keepFirstAux rest seen from by
        show (if f.name ∈ seen then _ else _) = _
        rw [if_pos hin]]
      refine ih (k + 1) seen hrest ?_
      intro n
      rw [hseen n]
      constructor
      · rintro ⟨j2, hj2, hjk2, hn2⟩
        exact ⟨j2, hj2, Nat.lt_succ_of_lt hjk2, hn2⟩
      · rintro ⟨j2, hj2, hjk2, hn2⟩
        rcases Nat.lt_succ_iff_lt_or_eq.mp hjk2 with hlt | heq
        · exact ⟨j2, hj2, hlt, hn2⟩
        · subst heq
          have hnf : n = f.name := by rw [← hn2, hfk]
          obtain ⟨j3, hj3, hjk3, hn3⟩ := (hseen f.name).mp hin
          exact ⟨j3, hj3, hjk3, by rw [hn3, hnf]⟩
    · have hnone : ∀ (j : Nat) (hj : j < full.length), j < k → full[j].name ≠ f.name := by
        intro j hj hjk hn
        exact hin ((hseen f.name).mpr ⟨j, hj, hjk, hn⟩)
      have hfind : full.findIdx (fun g => g.name == f.name) = k := by
        rw [List.findIdx_eq hk]
        constructor
        · rw [hfk]
          simp
        · intro j hj
          have hne : full[j].name ≠ f.name := hnone j (Nat.lt_trans hj hk) hj
          simpa using hne
      have hcond : (full.findIdx (fun g => g.name == f.name) == k) = true := by
        rw [hfind]
        simp
      rw [hcond]
      simp only [if_true]
      rw [List.map_cons]
      rw [show keepFirstAux (f :: rest) seen =
          f :: keepFirstAux rest (f.name :: seen) from by
        show (if f.name ∈ seen then _ else _) = _
        rw [if_neg hin]]
      congr 1
      refine ih (k + 1) (f.name :: seen) hrest ?_
      intro n
      constructor
      · intro hn
        rcases List.mem_cons.mp hn with rfl | hn
        · exact ⟨k, hk, Nat.lt_succ_self k, by rw [hfk]⟩
        · obtain ⟨j2, hj2, hjk2, hn2⟩ := (hseen n).mp hn
          exact ⟨j2, hj2, Nat.lt_succ_of_lt hjk2, hn2⟩
      · rintro ⟨j2, hj2, hjk2, hn2⟩
        rcases Nat.lt_succ_iff_lt_or_eq.mp hjk2 with hlt | heq
        · exact List.mem_cons_of_mem _ ((hseen n).mpr ⟨j2, hj2, hlt, hn2⟩)
        · subst heq
          have hnf : n = f.name := by rw [← hn2, hfk]
          rw [hnf]
          exact List.mem_cons_self _ _

/-- The source's index-based first-occurrence filter agrees with the
spec-side first-occurrence-by-name description. -/
theorem uniqueByName_eq_keepFirstByName (l : List ManagedFile) :
    uniqueByName l = keepFirstByName l := by
  unfold uniqueByName keepFirstByName
  have h := keepFirstAux_enum l l 0 []
    (by simp)
    (by
      intro n
      constructor
      · intro hn; exact absurd hn (List.not_mem_nil n)
      · rintro ⟨j, hj, hjk, -⟩; exact absurd hjk (Nat.not_lt_zero j))
  exact h

theorem keepFirstAux_of_nodup (l : List ManagedFile) :
    ∀ seen : List String, (l.map fun f => f.name).Nodup →
      (∀ fl ∈ l, fl.name ∉ seen) → keepFirstAux l seen = l := by
  induction l with
  | nil => intro seen _ _; rfl
  | cons f rest ih =>
    intro seen hnd hdisj
    show (if f.name ∈ seen then keepFirstAux rest seen
          else f :: keepFirstAux rest (f.name :: seen)) = f :: rest
    rw [if_neg (hdisj f (List.mem_cons_self f rest))]
    congr 1
    have hnd2 : (f.name ∉ rest.map fun f => f.name) ∧
        (rest.map fun f => f.name).Nodup := by
      rw [List.map_cons, List.nodup_cons] at hnd
      exact hnd
    refine ih (f.name :: seen) hnd2.2 ?_
    intro g hg hgin
    rcases List.mem_cons.mp hgin with heq | hgseen
    · exact hnd2.1 (heq ▸ List.mem_map_of_mem (fun f => f.name) hg)
    · exact hdisj g (List.mem_cons_of_mem f hg) hgseen

theorem keepFirstAux_append (l m : List ManagedFile) :
    ∀ seen : List String,
      keepFirstAux (l ++ m) seen =
        keepFirstAux l seen ++ keepFirstAux m (seenAfter l seen) := by
  induction l with
  | nil => intro seen; rfl
  | cons f rest ih =>
    intro seen
    show (if f.name ∈ seen then keepFirstAux (rest ++ m) seen
          else f :: keepFirstAux (rest ++ m) (f.name :: seen)) = _
    by_cases h : f.name ∈ seen
    · rw [if_pos h, ih seen]
      rw [show keepFirstAux (f :: rest) seen = keepFirstAux rest seen from by
        show (if f.name ∈ seen then _ else _) = _; rw [if_pos h]]
      rw [show seenAfter (f :: rest) seen = seenAfter rest seen from by
        show (if f.name ∈ seen then _ else _) = _; rw [if_pos h]]
    · rw [if_neg h, ih (f.name :: seen)]
      rw [show keepFirstAux (f :: rest) seen =
          f :: keepFirstAux rest (f.name :: seen) from by
        show (if f.name ∈ seen then _ else _) = _; rw [if_neg h]]
      rw [show seenAfter (f :: rest) seen = seenAfter rest (f.name :: seen) from by
        show (if f.name ∈ seen then _ else _) = _; rw [if_neg h]]
      rfl

theorem mem_seenAfter (l : List ManagedFile) :
    ∀ (seen : List String) (n : String),
      n ∈ seenAfter l seen ↔ n ∈ seen ∨ n ∈ l.map fun f => f.name := by
  induction l with
  | nil => intro seen n; simp [seenAfter]
  | cons f rest ih =>
    intro seen n
    by_cases h : f.name ∈ seen
    · rw [show seenAfter (f :: rest) seen = seenAfter rest seen from by
        show (if f.name ∈ seen then _ else _) = _; rw [if_pos h]]
      rw [ih seen n]
      simp only [List.map_cons, List.mem_cons]
      constructor
      · rintro (hs | hr)
        · exact Or.inl hs
        · exact Or.inr (Or.inr hr)
      · rintro (hs | heq | hr)
        · exact Or.inl hs
        · exact Or.inl (heq ▸ h)
        · exact Or.inr hr
    · rw [show seenAfter (f :: rest) seen = seenAfter rest (f.name :: seen) from by
        show (if f.name ∈ seen then _ else _) = _; rw [if_neg h]]
      rw [ih (f.name :: seen) n]
      simp only [List.map_cons, List.mem_cons]
      tauto

/-- C4: `handleAddFiles` computes the de-duplicated-by-name union of the
stored files followed by the new batch, first occurrence winning; in
particular, for a group whose stored file names are distinct, adding a
file whose name is already present leaves the group unchanged. -/
theorem handleAddFiles_dedup_by_name (g : KnowledgeGroup)
    (newFiles : List ManagedFile)
    (hnd : (g.files.map fun f => f.name).Nodup) :
    (addFilesGroup newFiles g).files = keepFirstByName (g.files ++ newFiles) ∧
    (∀ f : ManagedFile, f.name ∈ g.files.map (fun f => f.name) →
      addFilesGroup [f] g = g) := by
  constructor
  · show uniqueByName (g.files ++ newFiles) = keepFirstByName (g.files ++ newFiles)
    exact uniqueByName_eq_keepFirstByName _
  · intro f hf
    have hfiles : uniqueByName (g.files ++ [f]) = g.files := by
      rw [uniqueByName_eq_keepFirstByName]
      unfold keepFirstByName
      rw [keepFirstAux_append]
      rw [keepFirstAux_of_nodup g.files [] hnd fun fl _ => List.not_mem_nil fl.name]
      have hmem : f.name ∈ seenAfter g.files [] :=
        (mem_seenAfter g.files [] f.name).mpr (Or.inr hf)
      rw [show keepFirstAux [f] (seenAfter g.files []) = [] from by
        show (if f.name ∈ seenAfter g.files [] then _ else _) = _
        rw [if_pos hmem]
        rfl]
      rw [List.append_nil]
    show { g with files := uniqueByName (g.files ++ [f]) } = g
    rw [hfiles]

/-- Witness for C4: re-adding a file named `a.txt` (with different
content) to a group already holding `a.txt` is a no-op. -/
theorem handleAddFiles_dedup_by_name_witness :
    ((([ { name := "a.txt", content := "x" } ] : List ManagedFile)).map
        (fun f => f.name)).Nodup ∧
    ({ name := "a.txt", content := "y" } : ManagedFile).name ∈
      ([ { name := "a.txt", content := "x" } ] : List ManagedFile).map
        (fun f => f.name) ∧
    addFilesGroup [ { name := "a.txt", content := "y" } ]
      { id := "g", name := "G", urls := [],
        files := [ { name := "a.txt", content := "x" } ] } =
      { id := "g", name := "G", urls := [],
        files := [ { name := "a.txt", content := "x" } ] } :=
  ⟨by decide, by decide,
   (handleAddFiles_dedup_by_name
      { id := "g", name := "G", urls := [],
        files := [ { name := "a.txt", content := "x" } ] }
      [ { name := "a.txt", content := "y" } ] (by decide)).2
     { name := "a.txt", content := "y" } (by decide)⟩

/-! ### Capacity invariant (claim C1) -/

theorem uniqueByName_length_le (l : List ManagedFile) :
    (uniqueByName l).length ≤ l.length := by
  unfold uniqueByName
  rw [List.length_map]
  calc (l.enum.filter fun p =>
          l.findIdx (fun f => f.name == p.2.name) == p.1).length
      ≤ l.enum.length := List.length_filter_le _ _
    _ = l.length := List.enumFrom_length

theorem applyGroupOp_map_id (a : String) (op : GroupOp)
    (gs : List KnowledgeGroup) :
    (applyGroupOp a op gs).map (fun g => g.id) = gs.map fun g => g.id := by
  rw [applyGroupOp_eq_map, List.map_map]
  refine List.map_congr_left ?_
  intro g _
  show (if g.id == a then groupOpTransform op g else g).id = g.id
  by_cases h : g.id == a
  · rw [if_pos h, groupOpTransform_id]
  · rw [if_neg h]

theorem sourceCount_addUrlGroup (url : String) (g : KnowledgeGroup)
    (h : sourceCount g ≤ MAX_SOURCES) :
    sourceCount (addUrlGroup url g) ≤ MAX_SOURCES := by
  unfold addUrlGroup
  split
  · rename_i hcond
    show (g.urls ++ [url]).length + g.files.length ≤ MAX_SOURCES
    rw [List.length_append]
    have h1 := hcond.1
    simp only [List.length_cons, List.length_nil]
    omega
  · exact h

theorem handleFileChange_toAdd_bound
    (binExtract : String → String → Except String String)
    (urls : List String) (files : List ManagedFile) (selected : List RawFile)
    (succ : List ManagedFile)
    (h : (handleFileChange binExtract urls files selected).toAdd = some succ) :
    succ.length ≤ (filesToProcessOf files selected).length ∧
    urls.length + files.length + (filesToProcessOf files selected).length ≤
      MAX_SOURCES := by
  unfold handleFileChange at h
  by_cases h1 : selected.isEmpty
  · rw [if_pos h1] at h
    exact absurd h (by simp)
  · simp only [h1, Bool.false_eq_true, if_false] at h
    by_cases h2 : MAX_SOURCES ≤ urls.length + files.length
    · rw [if_pos h2] at h
      exact absurd h (by simp)
    · rw [if_neg h2] at h
      by_cases h3 : MAX_SOURCES <
          urls.length + files.length + (filesToProcessOf files selected).length
      · rw [if_pos h3] at h
        exact absurd h (by simp)
      · rw [if_neg h3] at h
        refine ⟨?_, Nat.le_of_not_lt h3⟩
        by_cases h4 : (((filesToProcessOf files selected).map
            (processFile binExtract)).filterMap fun r =>
              match r with | .ok m => some m | .error _ => none).isEmpty
        · rw [if_pos h4] at h
          exact absurd h (by simp)
        · rw [if_neg h4] at h
          have hsucc : succ = ((filesToProcessOf files selected).map
              (processFile binExtract)).filterMap fun r =>
                match r with | .ok m => some m | .error _ => none :=
            (Option.some.inj h).symm
          rw [hsucc]
          calc (((filesToProcessOf files selected).map
              (processFile binExtract)).filterMap fun r =>
                match r with | .ok m => some m | .error _ => none).length
              ≤ ((filesToProcessOf files selected).map
                  (processFile binExtract)).length :=
                List.length_filterMap_le _ _
            _ = (filesToProcessOf files selected).length := List.length_map _ _

/-- The strengthened induction invariant for C1: every group within
capacity, and the group ids pairwise distinct (true initially, preserved
because no operation changes an id). -/
def goodGroups (gs : List KnowledgeGroup) : Prop :=
  capInvariant gs ∧ (gs.map fun g => g.id).Nodup

theorem stepAdd_good (binExtract : String → String → Except String String)
    (ev : String × AddEvent) (gs : List KnowledgeGroup)
    (h : goodGroups gs) : goodGroups (stepAdd binExtract gs ev) := by
  obtain ⟨hcap, hnd⟩ := h
  obtain ⟨activeId, ev2⟩ := ev
  cases ev2 with
  | addUrl url =>
    show goodGroups (handleAddUrl activeId url gs)
    constructor
    · intro g hg
      obtain ⟨g0, hg0, rfl⟩ := List.mem_map.mp hg
      by_cases hid : g0.id == activeId
      · rw [if_pos hid]
        exact sourceCount_addUrlGroup url g0 (hcap g0 hg0)
      · rw [if_neg hid]
        exact hcap g0 hg0
    · show ((applyGroupOp activeId (.addUrl url) gs).map fun g => g.id).Nodup
      rw [applyGroupOp_map_id]
      exact hnd
  | importFiles selected =>
    show goodGroups (importFilesStep binExtract activeId selected gs)
    unfold importFilesStep
    cases hfind : gs.find? (fun g => g.id == activeId) with
    | none =>
      show goodGroups
        (match (handleFileChange binExtract [] [] selected).toAdd with
         | some successfulFiles => handleAddFiles activeId successfulFiles gs
         | none => gs)
      cases htoAdd : (handleFileChange binExtract [] [] selected).toAdd with
      | none => exact ⟨hcap, hnd⟩
      | some succ =>
        show goodGroups (handleAddFiles activeId succ gs)
        have hmap : handleAddFiles activeId succ gs = gs := by
          unfold handleAddFiles
          refine list_map_id_of_mem gs _ ?_
          intro g hg
          exact if_neg (List.find?_eq_none.mp hfind g hg)
        rw [hmap]
        exact ⟨hcap, hnd⟩
    | some g0 =>
      have hg0mem : g0 ∈ gs := List.mem_of_find?_eq_some hfind
      have hg0id := List.find?_some hfind
      show goodGroups
        (match (handleFileChange binExtract g0.urls g0.files selected).toAdd with
         | some successfulFiles => handleAddFiles activeId successfulFiles gs
         | none => gs)
      cases htoAdd : (handleFileChange binExtract g0.urls g0.files selected).toAdd with
      | none => exact ⟨hcap, hnd⟩
      | some succ =>
        show goodGroups (handleAddFiles activeId succ gs)
        have hbound := handleFileChange_toAdd_bound binExtract g0.urls g0.files
          selected succ htoAdd
        constructor
        · intro g hg
          obtain ⟨g1, hg1, rfl⟩ := List.mem_map.mp hg
          by_cases hid : g1.id == activeId
          · rw [if_pos hid]
            have hg1g0 : g1 = g0 :=
              List.inj_on_of_nodup_map hnd hg1 hg0mem
                (show g1.id = g0.id by rw [eq_of_beq hid, eq_of_beq hg0id])
            rw [hg1g0]
            show g0.urls.length + (uniqueByName (g0.files ++ succ)).length ≤
              MAX_SOURCES
            have h1 : (uniqueByName (g0.files ++ succ)).length ≤
                g0.files.length + succ.length := by
              calc (uniqueByName (g0.files ++ succ)).length
                  ≤ (g0.files ++ succ).length := uniqueByName_length_le _
                _ = g0.files.length + succ.length := List.length_append _ _
            have h2 := hbound.1
            have h3 := hbound.2
            omega
          · rw [if_neg hid]
            exact hcap g1 hg1
        · show ((applyGroupOp activeId (.addFiles succ) gs).map fun g => g.id).Nodup
          rw [applyGroupOp_map_id]
          exact hnd

/-- C1: starting from the initial knowledge groups, after every sequence
of add operations — URL adds through `handleAddUrl`, and file imports
going through the capacity check of `handleFileChange` before
`handleAddFiles` — every group satisfies
`len(urls) + len(files) ≤ MAX_SOURCES`.  Since the event sequence is
universally quantified, the invariant holds after each operation of any
run. -/
theorem capInvariant_runAdds (binExtract : String → String → Except String String)
    (evs : List (String × AddEvent)) :
    capInvariant (runAdds binExtract evs INITIAL_KNOWLEDGE_GROUPS) := by
  have hinit : goodGroups INITIAL_KNOWLEDGE_GROUPS := by
    constructor
    · intro g hg
      rcases List.mem_cons.mp hg with rfl | hg
      · decide
      · rcases List.mem_cons.mp hg with rfl | hg
        · decide
        · exact absurd hg (List.not_mem_nil g)
    · decide
  have haux : ∀ (l : List (String × AddEvent)) (gs : List KnowledgeGroup),
      goodGroups gs → goodGroups (l.foldl (stepAdd binExtract) gs) := by
    intro l
    induction l with
    | nil => intro gs hgs; exact hgs
    | cons ev l ih => intro gs hgs; exact ih _ (stepAdd_good binExtract ev gs hgs)
  exact (haux evs INITIAL_KNOWLEDGE_GROUPS hinit).1

/-! ### Fenced-JSON stripping (claim C7) -/

theorem dropWhile_append_of_all {α : Type} (p : α → Bool) (l m : List α)
    (h : ∀ a ∈ l, p a = true) : (l ++ m).dropWhile p = m.dropWhile p := by
  induction l with
  | nil => rfl
  | cons a l ih =>
    rw [List.cons_append, List.dropWhile_cons, if_pos (h a (List.mem_cons_self a l))]
    exact ih fun b hb => h b (List.mem_cons_of_mem a hb)

theorem dropWhile_head_false {α : Type} (p : α → Bool) :
    ∀ (l : List α) (c : α) (rest : List α), l.dropWhile p = c :: rest →
      p c = false := by
  intro l
  induction l with
  | nil => intro c rest h; exact List.noConfusion h
  | cons a l ih =>
    intro c rest h
    rw [List.dropWhile_cons] at h
    by_cases hp : p a
    · rw [if_pos hp] at h
      exact ih c rest h
    · rw [if_neg hp] at h
      obtain ⟨rfl, -⟩ := List.cons_eq_cons.mp h
      exact Bool.eq_false_iff.mpr hp

theorem jsTrimLeft_cons_of_neg (c : Char) (l : List Char) (h : jsSpace c = false) :
    jsTrimLeft (c :: l) = c :: l := by
  unfold jsTrimLeft
  rw [List.dropWhile_cons, if_neg (by simp [h])]

theorem jsTrimRight_concat_of_neg (l : List Char) (c : Char)
    (h : jsSpace c = false) : jsTrimRight (l ++ [c]) = l ++ [c] := by
  unfold jsTrimRight
  rw [List.reverse_append, List.reverse_singleton, List.singleton_append,
    List.dropWhile_cons, if_neg (by simp [h]), List.reverse_cons,
    List.reverse_reverse]

theorem jsTrimRight_append_allspace (l m : List Char)
    (h : ∀ c ∈ m, jsSpace c = true) : jsTrimRight (l ++ m) = jsTrimRight l := by
  unfold jsTrimRight
  rw [List.reverse_append,
    dropWhile_append_of_all jsSpace m.reverse l.reverse
      fun c hc => h c (List.mem_reverse.mp hc)]

/-- Decompose a list as its right-trimmed prefix plus an all-whitespace
suffix. -/
theorem jsTrimRight_decomp (l : List Char) :
    l = jsTrimRight l ++ (l.reverse.takeWhile jsSpace).reverse ∧
    ∀ c ∈ (l.reverse.takeWhile jsSpace).reverse, jsSpace c = true := by
  constructor
  · conv_lhs => rw [← l.reverse_reverse,
      ← List.takeWhile_append_dropWhile jsSpace l.reverse]
    rw [List.reverse_append]
    rfl
  · intro c hc
    exact List.mem_takeWhile_imp (List.mem_reverse.mp hc)

theorem head_of_jsTrim (J : List Char) (h : jsTrim J ≠ []) :
    ∃ c rest, jsTrim J = c :: rest ∧ jsSpace c = false := by
  cases hJT : jsTrim J with
  | nil => exact absurd hJT h
  | cons c rest =>
    refine ⟨c, rest, rfl, ?_⟩
    have hdec := (jsTrimRight_decomp (jsTrimLeft J)).1
    rw [show jsTrimRight (jsTrimLeft J) = jsTrim J from rfl, hJT,
      List.cons_append] at hdec
    exact dropWhile_head_false jsSpace J c _ hdec

theorem last_of_jsTrim (J : List Char) (h : jsTrim J ≠ []) :
    ∃ body d, jsTrim J = body ++ [d] ∧ jsSpace d = false := by
  cases hD : (jsTrimLeft J).reverse.dropWhile jsSpace with
  | nil =>
    refine absurd ?_ h
    show jsTrimRight (jsTrimLeft J) = []
    unfold jsTrimRight
    rw [hD]
    rfl
  | cons d D =>
    refine ⟨D.reverse, d, ?_, dropWhile_head_false jsSpace _ d D hD⟩
    show jsTrimRight (jsTrimLeft J) = D.reverse ++ [d]
    unfold jsTrimRight
    rw [hD, List.reverse_cons]

theorem jsTrim_idem (J : List Char) : jsTrim (jsTrim J) = jsTrim J := by
  by_cases h : jsTrim J = []
  · rw [h]
    rfl
  · obtain ⟨c, rest, hc, hcs⟩ := head_of_jsTrim J h
    obtain ⟨body, d, hd, hds⟩ := last_of_jsTrim J h
    show jsTrimRight (jsTrimLeft (jsTrim J)) = jsTrim J
    rw [hc, jsTrimLeft_cons_of_neg c rest hcs, ← hc, hd,
      jsTrimRight_concat_of_neg body d hds]

theorem jsonStrOf_fenced (tag J : List Char)
    (htag : ∀ c ∈ tag, jsWord c = true)
    (hJ : jsTrim J ≠ []) :
    jsonStrOf (fenceTicks ++ tag ++ '\n' :: (J ++ '\n' :: fenceTicks)) = jsTrim J := by
  obtain ⟨c0, rest0, hc, hcs⟩ := head_of_jsTrim J hJ
  obtain ⟨body0, d0, hd, hds⟩ := last_of_jsTrim J hJ
  have hJdec : J.takeWhile jsSpace ++ jsTrimLeft J = J :=
    List.takeWhile_append_dropWhile jsSpace J
  have hW1 : ∀ c ∈ J.takeWhile jsSpace, jsSpace c = true :=
    fun c hcm => List.mem_takeWhile_imp hcm
  have hTL2 : jsTrimLeft J =
      jsTrim J ++ ((jsTrimLeft J).reverse.takeWhile jsSpace).reverse :=
    (jsTrimRight_decomp (jsTrimLeft J)).1
  have hSws : ∀ c ∈ ((jsTrimLeft J).reverse.takeWhile jsSpace).reverse,
      jsSpace c = true :=
    (jsTrimRight_decomp (jsTrimLeft J)).2
  have htrimW : jsTrim (fenceTicks ++ tag ++ '\n' :: (J ++ '\n' :: fenceTicks)) =
      fenceTicks ++ tag ++ '\n' :: (J ++ '\n' :: fenceTicks) := by
    show jsTrimRight (jsTrimLeft _) = _
    have h1 : jsTrimLeft (fenceTicks ++ tag ++ '\n' :: (J ++ '\n' :: fenceTicks)) =
        fenceTicks ++ tag ++ '\n' :: (J ++ '\n' :: fenceTicks) :=
      jsTrimLeft_cons_of_neg backtick _ (by decide)
    rw [h1]
    have h2 : fenceTicks ++ tag ++ '\n' :: (J ++ '\n' :: fenceTicks) =
        (fenceTicks ++ tag ++ '\n' :: (J ++ ['\n', backtick, backtick])) ++
          [backtick] := by
      simp [fenceTicks]
    rw [h2, jsTrimRight_concat_of_neg _ _ (by decide)]
  have hcond : (fenceTicks ++ tag ++ '\n' :: (J ++ '\n' :: fenceTicks)).take 3 =
        fenceTicks ∧
      6 ≤ (fenceTicks ++ tag ++ '\n' :: (J ++ '\n' :: fenceTicks)).length ∧
      (fenceTicks ++ tag ++ '\n' :: (J ++ '\n' :: fenceTicks)).drop
        ((fenceTicks ++ tag ++ '\n' :: (J ++ '\n' :: fenceTicks)).length - 3) =
        fenceTicks := by
    refine ⟨@List.take_left' Char fenceTicks
      (tag ++ '\n' :: (J ++ '\n' :: fenceTicks)) 3 rfl, ?_, ?_⟩
    · simp [fenceTicks, List.length_append]
      omega
    · have h2 : fenceTicks ++ tag ++ '\n' :: (J ++ '\n' :: fenceTicks) =
          (fenceTicks ++ tag ++ '\n' :: (J ++ ['\n'])) ++ fenceTicks := by
        simp [fenceTicks]
      rw [h2]
      have hlen : ((fenceTicks ++ tag ++ '\n' :: (J ++ ['\n'])) ++
          fenceTicks).length - 3 =
          (fenceTicks ++ tag ++ '\n' :: (J ++ ['\n'])).length := by
        simp [fenceTicks, List.length_append]
        omega
      rw [hlen]
      exact List.drop_left _ _
  have hmid : (((fenceTicks ++ tag ++ '\n' ::
        (J ++ '\n' :: fenceTicks)).drop 3).dropWhile jsWord).dropWhile jsSpace =
      jsTrim J ++ (((jsTrimLeft J).reverse.takeWhile jsSpace).reverse ++
        '\n' :: fenceTicks) := by
    rw [show (fenceTicks ++ tag ++ '\n' :: (J ++ '\n' :: fenceTicks)).drop 3 =
        tag ++ '\n' :: (J ++ '\n' :: fenceTicks) from
      @List.drop_left' Char fenceTicks
        (tag ++ '\n' :: (J ++ '\n' :: fenceTicks)) 3 rfl]
    rw [dropWhile_append_of_all jsWord tag _ htag]
    rw [List.dropWhile_cons, if_neg (by decide)]
    rw [List.dropWhile_cons, if_pos (by decide)]
    conv_lhs => rw [← hJdec]
    rw [List.append_assoc]
    rw [dropWhile_append_of_all jsSpace (J.takeWhile jsSpace) _ hW1]
    conv_lhs => rw [hTL2]
    rw [List.append_assoc]
    conv_lhs => rw [hc]
    rw [List.cons_append]
    rw [List.dropWhile_cons, if_neg (by simp [hcs])]
    rw [hc, List.cons_append]
  have hg2 : fenceGroup2 (fenceTicks ++ tag ++ '\n' :: (J ++ '\n' :: fenceTicks)) =
      some (jsTrim J) := by
    unfold fenceGroup2
    rw [if_pos hcond]
    show some (jsTrimRight
      (((((fenceTicks ++ tag ++ '\n' :: (J ++ '\n' :: fenceTicks)).drop
            3).dropWhile jsWord).dropWhile jsSpace).take
        ((((((fenceTicks ++ tag ++ '\n' :: (J ++ '\n' :: fenceTicks)).drop
            3).dropWhile jsWord).dropWhile jsSpace)).length - 3))) = some (jsTrim J)
    rw [hmid]
    have hassoc : jsTrim J ++ (((jsTrimLeft J).reverse.takeWhile jsSpace).reverse ++
          '\n' :: fenceTicks) =
        (jsTrim J ++ (((jsTrimLeft J).reverse.takeWhile jsSpace).reverse ++
          ['\n'])) ++ fenceTicks := by
      simp [fenceTicks]
    rw [hassoc]
    have hlen : ((jsTrim J ++ (((jsTrimLeft J).reverse.takeWhile jsSpace).reverse ++
          ['\n'])) ++ fenceTicks).length - 3 =
        (jsTrim J ++ (((jsTrimLeft J).reverse.takeWhile jsSpace).reverse ++
          ['\n'])).length := by
      simp [fenceTicks, List.length_append]
      omega
    rw [hlen, List.take_left]
    congr 1
    rw [jsTrimRight_append_allspace _ _ (by
      intro c hcm
      rcases List.mem_append.mp hcm with hcm | hcm
      · exact hSws c hcm
      · rcases List.mem_cons.mp hcm with rfl | hcm
        · decide
        · exact absurd hcm (List.not_mem_nil c))]
    rw [hd]
    exact jsTrimRight_concat_of_neg body0 d0 hds
  simp only [jsonStrOf]
  rw [htrimW, hg2]
  show (if jsTrim J ≠ [] then jsTrim (jsTrim J)
        else fenceTicks ++ tag ++ '\n' :: (J ++ '\n' :: fenceTicks)) = jsTrim J
  rw [if_pos hJ, jsTrim_idem]

theorem jsonStrOf_unfenced (J : List Char)
    (hnf : (jsTrim J).take 3 ≠ fenceTicks) : jsonStrOf J = jsTrim J := by
  have hg : fenceGroup2 (jsTrim J) = none := by
    unfold fenceGroup2
    rw [if_neg (by intro hcontra; exact hnf hcontra.1)]
  simp only [jsonStrOf]
  rw [hg]

/-- C7: wrapping a JSON payload in a fenced code block with an arbitrary
word-character language tag is transparent to the suggestion-parsing
step: the fenced text and the bare payload put exactly the same string
through `JSON.parse`, so they yield the same suggestion list, whatever
the parser returns.  The hypotheses hold for every JSON payload: it is
non-empty after trimming and cannot begin with backticks. -/
theorem suggestionParse_fence_transparent
    (parseJson : List Char → Option JsonValue) (tag J : List Char)
    (htag : ∀ c ∈ tag, jsWord c = true)
    (hJ : jsTrim J ≠ [])
    (hnf : (jsTrim J).take 3 ≠ fenceTicks) :
    suggestionOutcomeOf parseJson
        (fenceTicks ++ tag ++ '\n' :: (J ++ '\n' :: fenceTicks)) =
      suggestionOutcomeOf parseJson J ∧
    jsonStrOf (fenceTicks ++ tag ++ '\n' :: (J ++ '\n' :: fenceTicks)) =
      jsonStrOf J := by
  have h3 : jsonStrOf (fenceTicks ++ tag ++ '\n' :: (J ++ '\n' :: fenceTicks)) =
      jsonStrOf J := by
    rw [jsonStrOf_fenced tag J htag hJ, jsonStrOf_unfenced J hnf]
  refine ⟨?_, h3⟩
  unfold suggestionOutcomeOf
  rw [h3]

/-- The example payload of the specification. -/
def exampleSuggestionsJson : List Char :=
  "\x7b\"suggestions\":[\"A?\",\"B?\"]\x7d".toList

/-- A concrete stand-in for `JSON.parse` that parses exactly the example
payload. -/
def exampleParseJson (s : List Char) : Option JsonValue :=
  if s = exampleSuggestionsJson then
    some (.obj [("suggestions", .arr [.str "A?", .str "B?"])])
  else none

/-- Witness for C7 at the specification's example: a ```json fence around
`{"suggestions":["A?","B?"]}` parses identically to the bare payload,
and the example yields the list `["A?", "B?"]`. -/
theorem suggestionParse_fence_transparent_witness :
    ((∀ c ∈ ("json".toList : List Char), jsWord c = true) ∧
      jsTrim exampleSuggestionsJson ≠ [] ∧
      (jsTrim exampleSuggestionsJson).take 3 ≠ fenceTicks) ∧
    suggestionOutcomeOf exampleParseJson
        (fenceTicks ++ "json".toList ++ '\n' ::
          (exampleSuggestionsJson ++ '\n' :: fenceTicks)) =
      suggestionOutcomeOf exampleParseJson exampleSuggestionsJson ∧
    suggestionOutcomeOf exampleParseJson exampleSuggestionsJson =
      .parsed ["A?", "B?"] :=
  ⟨⟨by decide, by decide, by decide⟩,
   (suggestionParse_fence_transparent exampleParseJson "json".toList
      exampleSuggestionsJson (by decide) (by decide) (by decide)).1,
   by decide⟩
